import Mathlib

/-!
# CLLVM/bridge.h

`bridge.h` is an include-guarded aggregation header: an `#ifndef`/`#define`
pair, twenty-eight `#include <llvm-c/...>` directives and the closing
`#endif`.  The development below embeds the file line by line, gives the
four directive kinds it uses their preprocessor meaning, and states the
properties of the header against that meaning.

The headers under `llvm-c/` belong to the LLVM installation, so what they
contain is a parameter.  For a single pass over the file a header is the
names it introduces (`Env`).  Where two orders of the include lines are
compared, what a header introduces may depend on the names defined when its
body is entered (`CondEnv`).
-/

namespace CLLVM

/-- One physical line of a header, by kind. -/
inductive Line where
  | blank
  | comment (text : String)
  | ifndef (name : String)
  | define (name : String)
  | includeAngle (path : String)
  | endif
  deriving DecidableEq, Repr

/-- The file `llvm-codegen/CLLVM/bridge.h`, lines 1 to 40 in order. -/
def bridge_h : List Line :=
  [ Line.comment "",
    Line.comment "  bridge.h",
    Line.comment "  llvm-codegen",
    Line.comment "",
    Line.comment "  Created by Evgeny Ukhanov on 22/12/2023.",
    Line.comment "",
    Line.blank,
    Line.ifndef "bridge_h",
    Line.define "bridge_h",
    Line.blank,
    Line.includeAngle "llvm-c/Transforms/PassBuilder.h",
    Line.includeAngle "llvm-c/Analysis.h",
    Line.includeAngle "llvm-c/BitReader.h",
    Line.includeAngle "llvm-c/BitWriter.h",
    Line.includeAngle "llvm-c/Comdat.h",
    Line.includeAngle "llvm-c/Core.h",
    Line.includeAngle "llvm-c/DataTypes.h",
    Line.includeAngle "llvm-c/DebugInfo.h",
    Line.includeAngle "llvm-c/Deprecated.h",
    Line.includeAngle "llvm-c/Disassembler.h",
    Line.includeAngle "llvm-c/DisassemblerTypes.h",
    Line.includeAngle "llvm-c/Error.h",
    Line.includeAngle "llvm-c/ErrorHandling.h",
    Line.includeAngle "llvm-c/ExecutionEngine.h",
    Line.includeAngle "llvm-c/ExternC.h",
    Line.includeAngle "llvm-c/IRReader.h",
    Line.includeAngle "llvm-c/LLJIT.h",
    Line.includeAngle "llvm-c/Linker.h",
    Line.includeAngle "llvm-c/Object.h",
    Line.includeAngle "llvm-c/Orc.h",
    Line.includeAngle "llvm-c/OrcEE.h",
    Line.includeAngle "llvm-c/Remarks.h",
    Line.includeAngle "llvm-c/Support.h",
    Line.includeAngle "llvm-c/Target.h",
    Line.includeAngle "llvm-c/TargetMachine.h",
    Line.includeAngle "llvm-c/Types.h",
    Line.includeAngle "llvm-c/blake3.h",
    Line.includeAngle "llvm-c/lto.h",
    Line.blank,
    Line.endif ]

/-- The paths named by the `#include` directives of a file, in file order. -/
def includePaths (file : List Line) : List String :=
  file.filterMap fun l =>
    match l with
    | Line.includeAngle p => some p
    | _ => none

/-- The lines strictly between `#ifndef guard` and the next `#endif`. -/
def guardedRegion (guard : String) (file : List Line) : List Line :=
  ((file.dropWhile fun l => l != Line.ifndef guard).drop 1).takeWhile
    fun l => l != Line.endif

/-- Whether a path lies under the directory `llvm-c/`. -/
def underLlvmC (path : String) : Bool :=
  "llvm-c/".data.isPrefixOf path.data

/-- Whether a line is blank or a comment. -/
def Line.isTrivia : Line → Bool
  | Line.blank => true
  | Line.comment _ => true
  | _ => false

/-- Whether a line is an `#include` of a header under `llvm-c/`. -/
def Line.isLlvmInclude : Line → Bool
  | Line.includeAngle p => underLlvmC p
  | _ => false

/-- The installation the header is compiled against: which headers exist,
whether a header protects itself against a second inclusion, and the names
each one introduces (object-like defines and declarations).  A header is
taken as a unit: what it pulls in itself counts among its own names, and a
guarded header counts as guarded from the moment its body has been entered. -/
structure Env where
  available : String → Bool
  guarded : String → Bool
  defines : String → List String
  decls : String → List String

/-- The preprocessor state of a translation unit: the names defined by
`#define` directives (or on the command line), the `#include` directives
executed so far, and the external headers whose body has been entered. -/
structure PPState where
  defined : List String
  requested : List String
  entered : List String
  deriving DecidableEq, Repr

/-- What stops preprocessing. -/
inductive PPError where
  | missingHeader (path : String)
  | unbalancedEndif
  | unterminatedConditional
  deriving DecidableEq, Repr

/-- Whether `#ifndef name` finds `name` defined: by a `#define` of the
translation unit or by a header already entered. -/
def isDefined (env : Env) (s : PPState) (name : String) : Bool :=
  decide (name ∈ s.defined) || s.entered.any fun p => decide (name ∈ env.defines p)

/-- The effect of `#define name`. -/
def defineName (name : String) (s : PPState) : PPState :=
  if name ∈ s.defined then s else { s with defined := s.defined ++ [name] }

/-- The effect of `#include <path>` for an available header: the request is
recorded, and the body is entered unless the header is guarded and was
entered before. -/
def includeHeader (env : Env) (path : String) (s : PPState) : PPState :=
  if env.guarded path && decide (path ∈ s.entered) then
    { s with requested := s.requested ++ [path] }
  else
    { s with requested := s.requested ++ [path], entered := s.entered ++ [path] }

/-- The preprocessor over the lines of a file.  `opened` counts the
conditionals whose body is being processed, `skipping` the conditionals
open since a false `#ifndef` (zero when lines are live). -/
def run (env : Env) : List Line → Nat → Nat → PPState → Except PPError PPState
  | [], opened, skipping, s =>
    if opened = 0 ∧ skipping = 0 then Except.ok s
    else Except.error PPError.unterminatedConditional
  | Line.blank :: rest, opened, skipping, s => run env rest opened skipping s
  | Line.comment _ :: rest, opened, skipping, s => run env rest opened skipping s
  | Line.ifndef name :: rest, opened, skipping, s =>
    if 0 < skipping then run env rest opened (skipping + 1) s
    else if isDefined env s name then run env rest opened 1 s
    else run env rest (opened + 1) 0 s
  | Line.define name :: rest, opened, skipping, s =>
    if 0 < skipping then run env rest opened skipping s
    else run env rest opened 0 (defineName name s)
  | Line.includeAngle path :: rest, opened, skipping, s =>
    if 0 < skipping then run env rest opened skipping s
    else if env.available path then run env rest opened 0 (includeHeader env path s)
    else Except.error (PPError.missingHeader path)
  | Line.endif :: rest, opened, skipping, s =>
    if 0 < skipping then run env rest opened (skipping - 1) s
    else if opened = 0 then Except.error PPError.unbalancedEndif
    else run env rest (opened - 1) 0 s

/-- Preprocessing a whole file from state `s`. -/
def preprocess (env : Env) (file : List Line) (s : PPState) : Except PPError PPState :=
  run env file 0 0 s

/-- The declarations visible in a state: those of the headers entered. -/
def visibleDecls (env : Env) (s : PPState) : List String :=
  s.entered.flatMap env.decls

/-- Every name defined in a state: defines of the translation unit, and the
defines and declarations of the headers entered. -/
def definedNames (env : Env) (s : PPState) : List String :=
  s.defined ++ s.entered.flatMap env.defines ++ s.entered.flatMap env.decls

/-- The file `bridge.h` with its `#include` lines replaced by directives for
`paths`: lines 1 to 10 and 39 to 40 are kept as they are. -/
def withIncludes (paths : List String) : List Line :=
  bridge_h.take 10 ++ paths.map Line.includeAngle ++ bridge_h.drop 38

/-- The first of `paths`, in order, that the installation does not have. -/
def firstMissing (env : Env) (paths : List String) : Option String :=
  paths.find? fun p => !env.available p

/-- The state after the directives `#include <p>` for `p` in `paths`, all
available, have been executed in order. -/
def enterAll (env : Env) (paths : List String) (s : PPState) : PPState :=
  paths.foldl (fun acc p => includeHeader env p acc) s

/-- The declaration groups the specification lists as the external
interface, in the order it lists them. -/
def specGroups : List String :=
  ["Core", "Analysis", "BitReader", "BitWriter", "Comdat", "DataTypes",
   "DebugInfo", "Deprecated", "Disassembler", "DisassemblerTypes", "Error",
   "ErrorHandling", "ExecutionEngine", "IRReader", "LLJIT", "Linker", "Object",
   "Orc", "OrcEE", "Remarks", "Support", "Target", "TargetMachine", "Types",
   "blake3", "lto"]

/-- The header path of a declaration group. -/
def headerOf (group : String) : String :=
  "llvm-c/" ++ group ++ ".h"

/-- An installation with every header present and guarded, where each header
declares one name, its own path. -/
def fullEnv : Env :=
  { available := fun _ => true
    guarded := fun _ => true
    defines := fun _ => []
    decls := fun p => [p] }

/-- An installation with no header at all. -/
def emptyEnv : Env :=
  { available := fun _ => false
    guarded := fun _ => true
    defines := fun _ => []
    decls := fun _ => [] }

/-- The state at the start of a translation unit. -/
def PPState.init : PPState :=
  { defined := [], requested := [], entered := [] }


/-- The preprocessor state against a `CondEnv`: every name defined so far (by
`#define` or by a header), the `#include` directives executed, the headers
whose body has been entered, and the declarations made visible. -/
structure CondState where
  defined : List String
  requested : List String
  entered : List String
  declared : List String
  deriving DecidableEq, Repr

/-- The `CondState` at the start of a translation unit. -/
def CondState.init : CondState :=
  { defined := [], requested := [], entered := [], declared := [] }

/-! ## The preprocessor on runs of `#include` lines -/

theorem run_blank (env : Env) (rest : List Line) (opened skipping : Nat) (s : PPState) :
    run env (Line.blank :: rest) opened skipping s = run env rest opened skipping s := rfl

theorem run_comment (env : Env) (text : String) (rest : List Line) (opened skipping : Nat)
    (s : PPState) :
    run env (Line.comment text :: rest) opened skipping s = run env rest opened skipping s := rfl

theorem run_ifndef_live (env : Env) (name : String) (rest : List Line) (opened : Nat)
    (s : PPState) :
    run env (Line.ifndef name :: rest) opened 0 s
      = if isDefined env s name then run env rest opened 1 s
        else run env rest (opened + 1) 0 s := rfl

theorem run_define_live (env : Env) (name : String) (rest : List Line) (opened : Nat)
    (s : PPState) :
    run env (Line.define name :: rest) opened 0 s
      = run env rest opened 0 (defineName name s) := rfl

theorem run_define_skipping (env : Env) (name : String) (rest : List Line) (opened k : Nat)
    (s : PPState) :
    run env (Line.define name :: rest) opened (k + 1) s = run env rest opened (k + 1) s := by
  simp [run]

theorem run_include_live (env : Env) (path : String) (rest : List Line) (opened : Nat)
    (s : PPState) :
    run env (Line.includeAngle path :: rest) opened 0 s
      = if env.available path then run env rest opened 0 (includeHeader env path s)
        else Except.error (PPError.missingHeader path) := rfl

theorem run_include_skipping (env : Env) (path : String) (rest : List Line) (opened k : Nat)
    (s : PPState) :
    run env (Line.includeAngle path :: rest) opened (k + 1) s
      = run env rest opened (k + 1) s := by
  simp [run]

theorem run_endif_live (env : Env) (rest : List Line) (opened : Nat) (s : PPState) :
    run env (Line.endif :: rest) (opened + 1) 0 s = run env rest opened 0 s := rfl

theorem run_endif_skipping (env : Env) (rest : List Line) (opened k : Nat) (s : PPState) :
    run env (Line.endif :: rest) opened (k + 1) s = run env rest opened k s := by
  simp [run]

theorem run_nil (env : Env) (s : PPState) : run env [] 0 0 s = Except.ok s := rfl

theorem run_includes_skipping (env : Env) (paths : List String) (rest : List Line)
    (opened k : Nat) (s : PPState) :
    run env (paths.map Line.includeAngle ++ rest) opened (k + 1) s
      = run env rest opened (k + 1) s := by
  induction paths with
  | nil => rfl
  | cons p ps ih => rw [List.map_cons, List.cons_append, run_include_skipping, ih]

theorem run_includes_live (env : Env) (paths : List String) (rest : List Line)
    (opened : Nat) (s : PPState) :
    run env (paths.map Line.includeAngle ++ rest) opened 0 s
      = match firstMissing env paths with
        | some p => Except.error (PPError.missingHeader p)
        | none => run env rest opened 0 (enterAll env paths s) := by
  induction paths generalizing s with
  | nil => rfl
  | cons p ps ih =>
    rw [List.map_cons, List.cons_append, run_include_live]
    cases hp : env.available p
    · simp [firstMissing, hp]
    · rw [if_pos rfl, ih]
      simp [firstMissing, enterAll, hp]

theorem bridge_h_eq : bridge_h = withIncludes (includePaths bridge_h) := rfl

theorem withIncludes_eq (paths : List String) :
    withIncludes paths
      = Line.comment "" :: Line.comment "  bridge.h" :: Line.comment "  llvm-codegen"
        :: Line.comment "" :: Line.comment "  Created by Evgeny Ukhanov on 22/12/2023."
        :: Line.comment "" :: Line.blank :: Line.ifndef "bridge_h" :: Line.define "bridge_h"
        :: Line.blank :: (paths.map Line.includeAngle ++ [Line.blank, Line.endif]) := rfl

/-- What preprocessing does to `bridge.h` with any list of include paths. -/
theorem preprocess_withIncludes (env : Env) (paths : List String) (s : PPState) :
    preprocess env (withIncludes paths) s
      = if isDefined env s "bridge_h" then Except.ok s
        else match firstMissing env paths with
          | some p => Except.error (PPError.missingHeader p)
          | none => Except.ok (enterAll env paths (defineName "bridge_h" s)) := by
  rw [preprocess, withIncludes_eq]
  simp only [run_comment, run_blank, run_ifndef_live]
  cases hd : isDefined env s "bridge_h"
  · rw [if_neg (by simp), if_neg (by simp), run_define_live, run_blank, run_includes_live]
    cases firstMissing env paths
    · simp only [run_blank, run_endif_live, run_nil]
    · rfl
  · rw [if_pos rfl, if_pos rfl, run_define_skipping, run_blank, run_includes_skipping,
      run_blank, run_endif_skipping, run_nil]

theorem preprocess_bridge_h (env : Env) (s : PPState) :
    preprocess env bridge_h s
      = if isDefined env s "bridge_h" then Except.ok s
        else match firstMissing env (includePaths bridge_h) with
          | some p => Except.error (PPError.missingHeader p)
          | none => Except.ok (enterAll env (includePaths bridge_h) (defineName "bridge_h" s)) := by
  rw [bridge_h_eq]
  exact preprocess_withIncludes env _ s

/-! ## Facts about the state after a run of includes -/

theorem includeHeader_defined (env : Env) (p : String) (s : PPState) :
    (includeHeader env p s).defined = s.defined := by
  unfold includeHeader
  split <;> rfl

theorem includeHeader_requested (env : Env) (p : String) (s : PPState) :
    (includeHeader env p s).requested = s.requested ++ [p] := by
  unfold includeHeader
  split <;> rfl

theorem mem_includeHeader_entered (env : Env) (p q : String) (s : PPState) :
    q ∈ (includeHeader env p s).entered ↔ q ∈ s.entered ∨ q = p := by
  unfold includeHeader
  split
  · rename_i h
    simp only [Bool.and_eq_true, decide_eq_true_eq] at h
    constructor
    · exact fun hq => Or.inl hq
    · rintro (hq | rfl)
      · exact hq
      · exact h.2
  · simp

theorem enterAll_cons (env : Env) (p : String) (ps : List String) (s : PPState) :
    enterAll env (p :: ps) s = enterAll env ps (includeHeader env p s) := rfl

theorem enterAll_defined (env : Env) (ps : List String) (s : PPState) :
    (enterAll env ps s).defined = s.defined := by
  induction ps generalizing s with
  | nil => rfl
  | cons p ps ih => rw [enterAll_cons, ih, includeHeader_defined]

theorem enterAll_requested (env : Env) (ps : List String) (s : PPState) :
    (enterAll env ps s).requested = s.requested ++ ps := by
  induction ps generalizing s with
  | nil => simp [enterAll]
  | cons p ps ih => rw [enterAll_cons, ih, includeHeader_requested]; simp

theorem mem_enterAll_entered (env : Env) (ps : List String) (q : String) (s : PPState) :
    q ∈ (enterAll env ps s).entered ↔ q ∈ s.entered ∨ q ∈ ps := by
  induction ps generalizing s with
  | nil => simp [enterAll]
  | cons p ps ih =>
    rw [enterAll_cons, ih, mem_includeHeader_entered, List.mem_cons, or_assoc]

theorem defineName_entered (name : String) (s : PPState) :
    (defineName name s).entered = s.entered := by
  unfold defineName
  split <;> rfl

theorem defineName_requested (name : String) (s : PPState) :
    (defineName name s).requested = s.requested := by
  unfold defineName
  split <;> rfl

theorem mem_defineName_defined (name n : String) (s : PPState) :
    n ∈ (defineName name s).defined ↔ n ∈ s.defined ∨ n = name := by
  unfold defineName
  split
  · rename_i h
    constructor
    · exact fun hn => Or.inl hn
    · rintro (hn | rfl)
      · exact hn
      · exact h
  · simp

theorem isDefined_iff (env : Env) (s : PPState) (name : String) :
    isDefined env s name = true
      ↔ name ∈ s.defined ∨ ∃ p ∈ s.entered, name ∈ env.defines p := by
  simp [isDefined]

theorem firstMissing_eq_none (env : Env) (ps : List String) :
    firstMissing env ps = none ↔ ∀ p ∈ ps, env.available p = true := by
  simp [firstMissing]

theorem firstMissing_eq_some (env : Env) (ps : List String) (p : String) :
    firstMissing env ps = some p
      ↔ env.available p = false
        ∧ ∃ before after, ps = before ++ p :: after ∧ ∀ q ∈ before, env.available q = true := by
  simp [firstMissing, List.find?_eq_some]

theorem guard_defined_noop_aux (env : Env) (s : PPState)
    (hd : isDefined env s "bridge_h" = true) :
    preprocess env bridge_h s = Except.ok s := by
  rw [preprocess_bridge_h, hd, if_pos rfl]

/-- The state `bridge.h` leaves when its body is processed. -/
theorem isDefined_after_body (env : Env) (ps : List String) (s : PPState) :
    isDefined env (enterAll env ps (defineName "bridge_h" s)) "bridge_h" = true := by
  rw [isDefined_iff, enterAll_defined, mem_defineName_defined]
  exact Or.inl (Or.inr rfl)

/-! ## The include list of `bridge.h` -/

/-- C2: each of the twenty-six groups the specification lists is named by an
`#include <llvm-c/NAME.h>` line between `#ifndef bridge_h` and `#endif`; the
groups are pairwise distinct and there are at least sixteen of them. -/
theorem spec_groups_included :
    (∀ g ∈ specGroups,
        Line.includeAngle (headerOf g) ∈ guardedRegion "bridge_h" bridge_h)
      ∧ specGroups.Nodup ∧ 16 ≤ specGroups.length := by
  decide

/-- C3, as stated, fails: `bridge.h` includes `llvm-c/ExternC.h` (and
`llvm-c/Transforms/PassBuilder.h`), which the specification's list does not
name. -/
theorem includes_not_only_spec_groups :
    ¬ (∀ p ∈ includePaths bridge_h, p ∈ specGroups.map headerOf) := by
  decide

/-- C3, amended: the headers included by `bridge.h` are exactly those of the
twenty-six listed groups together with `llvm-c/Transforms/PassBuilder.h` and
`llvm-c/ExternC.h`. -/
theorem includes_exactly (p : String) :
    p ∈ includePaths bridge_h
      ↔ p ∈ specGroups.map headerOf
        ∨ p = "llvm-c/Transforms/PassBuilder.h" ∨ p = "llvm-c/ExternC.h" := by
  have h1 : ∀ q ∈ includePaths bridge_h,
      q ∈ specGroups.map headerOf ++ ["llvm-c/Transforms/PassBuilder.h", "llvm-c/ExternC.h"] := by
    decide
  have h2 : ∀ q ∈ specGroups.map headerOf
      ++ ["llvm-c/Transforms/PassBuilder.h", "llvm-c/ExternC.h"], q ∈ includePaths bridge_h := by
    decide
  constructor
  · intro hp
    have := h1 p hp
    simpa [List.mem_append, or_assoc] using this
  · intro hp
    apply h2 p
    simpa [List.mem_append, or_assoc] using hp

/-- C8, as stated, fails: line 8 of `bridge.h` is `#ifndef bridge_h`, which is
neither blank, nor a comment, nor an `#include`. -/
theorem not_only_includes :
    ¬ (∀ l ∈ bridge_h, l.isTrivia = false → l.isLlvmInclude = true) := by
  decide

/-- C8, amended: the lines of `bridge.h` that are neither blank nor comments
nor `#include <llvm-c/...>` directives are exactly the three lines of its
include guard, `#ifndef bridge_h`, `#define bridge_h` and `#endif`, in that
order; every `#include` names a header under `llvm-c/`. -/
theorem only_includes_and_guard :
    (bridge_h.filter fun l => !l.isTrivia && !l.isLlvmInclude)
        = [ Line.ifndef "bridge_h", Line.define "bridge_h", Line.endif ]
      ∧ ∀ p ∈ includePaths bridge_h, underLlvmC p = true := by
  decide

/-- C10: `bridge.h` has twenty-eight `#include` lines naming pairwise
distinct headers, the first `llvm-c/Transforms/PassBuilder.h` and the last
`llvm-c/lto.h`; when `bridge_h` is not yet defined and every header exists,
processing the file executes exactly these requests, once each and in file
order. -/
theorem includes_distinct_in_order :
    (includePaths bridge_h).length = 28
      ∧ (includePaths bridge_h).Nodup
      ∧ (includePaths bridge_h).head? = some "llvm-c/Transforms/PassBuilder.h"
      ∧ (includePaths bridge_h).getLast? = some "llvm-c/lto.h"
      ∧ ∀ (env : Env) (s : PPState), isDefined env s "bridge_h" = false →
          (∀ p ∈ includePaths bridge_h, env.available p = true) →
          ∃ s1, preprocess env bridge_h s = Except.ok s1
            ∧ s1.requested = s.requested ++ includePaths bridge_h := by
  refine ⟨by decide, by decide, by decide, by decide, ?_⟩
  intro env s hd havail
  rw [preprocess_bridge_h, hd, if_neg (by simp), (firstMissing_eq_none env _).2 havail]
  exact ⟨_, rfl, by rw [enterAll_requested, defineName_requested]⟩

/-- C10 at a fresh translation unit with every header installed. -/
theorem includes_distinct_in_order_witness :
    ∃ s1, preprocess fullEnv bridge_h PPState.init = Except.ok s1
      ∧ s1.requested = PPState.init.requested ++ includePaths bridge_h :=
  includes_distinct_in_order.2.2.2.2 fullEnv PPState.init (by decide) (fun _ _ => rfl)

/-! ## The include guard -/

/-- C9: when `bridge_h` is already defined, processing `bridge.h` succeeds
whatever headers exist, and returns the state it started from: no request,
no header entered, no name defined. -/
theorem guard_defined_noop (env : Env) (s : PPState)
    (hd : isDefined env s "bridge_h" = true) :
    preprocess env bridge_h s = Except.ok s := by
  rw [preprocess_bridge_h, hd, if_pos rfl]

/-- C9 with no header installed at all. -/
theorem guard_defined_noop_witness :
    preprocess emptyEnv bridge_h { defined := ["bridge_h"], requested := [], entered := [] }
      = Except.ok { defined := ["bridge_h"], requested := [], entered := [] } :=
  guard_defined_noop emptyEnv _ (by decide)

/-- C1: when every included header exists, processing `bridge.h` succeeds, the
state it leaves has `bridge_h` defined, and processing it again from that
state succeeds and leaves the state as it is. -/
theorem include_twice_idempotent (env : Env) (s : PPState)
    (havail : ∀ p ∈ includePaths bridge_h, env.available p = true) :
    ∃ s1, preprocess env bridge_h s = Except.ok s1
      ∧ isDefined env s1 "bridge_h" = true
      ∧ preprocess env bridge_h s1 = Except.ok s1 := by
  cases hd : isDefined env s "bridge_h"
  · refine ⟨enterAll env (includePaths bridge_h) (defineName "bridge_h" s), ?_, ?_, ?_⟩
    · rw [preprocess_bridge_h, hd, if_neg (by simp), (firstMissing_eq_none env _).2 havail]
    · exact isDefined_after_body env _ s
    · rw [preprocess_bridge_h, isDefined_after_body, if_pos rfl]
  · refine ⟨s, ?_, hd, ?_⟩ <;> rw [preprocess_bridge_h, hd, if_pos rfl]

/-- C1 at a fresh translation unit with every header installed. -/
theorem include_twice_idempotent_witness :
    ∃ s1, preprocess fullEnv bridge_h PPState.init = Except.ok s1
      ∧ isDefined fullEnv s1 "bridge_h" = true
      ∧ preprocess fullEnv bridge_h s1 = Except.ok s1 :=
  include_twice_idempotent fullEnv PPState.init (fun _ _ => rfl)

/-! ## Missing headers -/

/-- C4, as stated, fails: with `bridge_h` already defined and no header
installed, every included header is missing and yet processing succeeds. -/
theorem missing_header_without_error :
    ¬ ((∃ e, preprocess emptyEnv bridge_h
            { defined := ["bridge_h"], requested := [], entered := [] } = Except.error e)
        ↔ ∃ p ∈ includePaths bridge_h, emptyEnv.available p = false) := by
  rw [guard_defined_noop_aux emptyEnv _ (by decide)]
  intro h
  obtain ⟨e, he⟩ := h.2 ⟨"llvm-c/lto.h", by decide, rfl⟩
  cases he

/-- C4, amended: when `bridge_h` is not defined on entry, processing `bridge.h`
returns an error exactly when one of the headers it includes is missing; the
error is `missingHeader p` for the first missing `p` in file order; and when
all are installed it succeeds. -/
theorem missing_header_error (env : Env) (s : PPState)
    (hd : isDefined env s "bridge_h" = false) :
    ((∃ e, preprocess env bridge_h s = Except.error e)
        ↔ ∃ p ∈ includePaths bridge_h, env.available p = false)
      ∧ (∀ e, preprocess env bridge_h s = Except.error e →
          ∃ p before after, e = PPError.missingHeader p ∧ env.available p = false
            ∧ includePaths bridge_h = before ++ p :: after
            ∧ ∀ q ∈ before, env.available q = true)
      ∧ ((∀ p ∈ includePaths bridge_h, env.available p = true) →
          ∃ s1, preprocess env bridge_h s = Except.ok s1) := by
  rw [preprocess_bridge_h, hd, if_neg (by simp)]
  cases hf : firstMissing env (includePaths bridge_h) with
  | none =>
    have havail := (firstMissing_eq_none env _).1 hf
    refine ⟨⟨?_, ?_⟩, ?_, fun _ => ⟨_, rfl⟩⟩
    · rintro ⟨e, he⟩
      cases he
    · rintro ⟨p, hp, hmiss⟩
      rw [havail p hp] at hmiss
      cases hmiss
    · intro e he
      cases he
  | some p =>
    obtain ⟨hmiss, before, after, hsplit, hbefore⟩ := (firstMissing_eq_some env _ p).1 hf
    have hmem : p ∈ includePaths bridge_h := by
      rw [hsplit]
      simp
    refine ⟨⟨fun _ => ⟨p, hmem, hmiss⟩, fun _ => ⟨_, rfl⟩⟩, ?_, ?_⟩
    · intro e he
      cases he
      exact ⟨p, before, after, rfl, hmiss, hsplit, hbefore⟩
    · intro havail
      rw [havail p hmem] at hmiss
      cases hmiss

/-- C4, amended, at a fresh translation unit with no header installed:
`bridge_h` is not defined, a header is missing and processing fails. -/
theorem missing_header_error_witness :
    isDefined emptyEnv PPState.init "bridge_h" = false
      ∧ ((∃ e, preprocess emptyEnv bridge_h PPState.init = Except.error e)
          ↔ ∃ p ∈ includePaths bridge_h, emptyEnv.available p = false) :=
  ⟨by decide, (missing_header_error emptyEnv PPState.init (by decide)).1⟩

/-! ## Names and declarations -/

/-- C5, as stated, fails: from a fresh translation unit, with every header
installed, `bridge_h` is defined afterwards, was not defined before, and is
introduced by none of the included headers. -/
theorem guard_name_is_own_symbol :
    ¬ (∀ s1, preprocess fullEnv bridge_h PPState.init = Except.ok s1 →
        ∀ n ∈ definedNames fullEnv s1, n ∉ definedNames fullEnv PPState.init →
          ∃ p ∈ includePaths bridge_h, n ∈ fullEnv.defines p ∨ n ∈ fullEnv.decls p) := by
  intro h
  have hrun : preprocess fullEnv bridge_h PPState.init
      = Except.ok (enterAll fullEnv (includePaths bridge_h)
          (defineName "bridge_h" PPState.init)) := by
    rw [preprocess_bridge_h, if_neg (by decide),
      (firstMissing_eq_none fullEnv _).2 (fun _ _ => rfl)]
  have hin : "bridge_h" ∈ definedNames fullEnv
      (enterAll fullEnv (includePaths bridge_h) (defineName "bridge_h" PPState.init)) := by
    unfold definedNames
    rw [enterAll_defined]
    simp [mem_defineName_defined]
  obtain ⟨p, hp, hdef⟩ := h _ hrun "bridge_h" hin (by decide)
  have hp2 : p = "bridge_h" := by
    simpa [fullEnv, eq_comm] using hdef
  subst hp2
  revert hp
  decide

/-- C5, amended: a name defined after processing `bridge.h` that was not
defined before is either the guard name `bridge_h` or a define or declaration
of one of the headers the file includes. -/
theorem new_names_guard_or_headers (env : Env) (s s1 : PPState)
    (hrun : preprocess env bridge_h s = Except.ok s1) (n : String)
    (hn : n ∈ definedNames env s1) (hnew : n ∉ definedNames env s) :
    n = "bridge_h"
      ∨ ∃ p ∈ includePaths bridge_h, n ∈ env.defines p ∨ n ∈ env.decls p := by
  rw [preprocess_bridge_h] at hrun
  cases hd : isDefined env s "bridge_h"
  · rw [hd, if_neg (by simp)] at hrun
    cases hf : firstMissing env (includePaths bridge_h) with
    | some p =>
      rw [hf] at hrun
      cases hrun
    | none =>
      rw [hf] at hrun
      cases hrun
      simp only [definedNames, List.mem_append, List.mem_flatMap, not_or, not_exists,
        not_and] at hn hnew
      obtain ⟨⟨hnd, hndef⟩, hndecl⟩ := hnew
      rcases hn with (hdn | ⟨q, hq, hqn⟩) | ⟨q, hq, hqn⟩
      · rw [enterAll_defined, mem_defineName_defined] at hdn
        rcases hdn with hdn | hdn
        · exact absurd hdn hnd
        · exact Or.inl hdn
      · rw [mem_enterAll_entered, defineName_entered] at hq
        rcases hq with hq | hq
        · exact absurd hqn (hndef q hq)
        · exact Or.inr ⟨q, hq, Or.inl hqn⟩
      · rw [mem_enterAll_entered, defineName_entered] at hq
        rcases hq with hq | hq
        · exact absurd hqn (hndecl q hq)
        · exact Or.inr ⟨q, hq, Or.inr hqn⟩
  · rw [hd, if_pos rfl] at hrun
    cases hrun
    exact absurd hn hnew

/-- C5, amended, at a fresh translation unit with every header installed: the
declaration `llvm-c/Core.h` of the header of that name is new. -/
theorem new_names_guard_or_headers_witness :
    "llvm-c/Core.h" = "bridge_h"
      ∨ ∃ p ∈ includePaths bridge_h,
          "llvm-c/Core.h" ∈ fullEnv.defines p ∨ "llvm-c/Core.h" ∈ fullEnv.decls p :=
  new_names_guard_or_headers fullEnv PPState.init
    (enterAll fullEnv (includePaths bridge_h) (defineName "bridge_h" PPState.init))
    (by rw [preprocess_bridge_h, if_neg (by decide),
          (firstMissing_eq_none fullEnv _).2 (fun _ _ => rfl)])
    "llvm-c/Core.h"
    (by
      unfold definedNames
      apply List.mem_append_right
      rw [List.mem_flatMap]
      refine ⟨"llvm-c/Core.h", ?_, by simp [fullEnv]⟩
      rw [mem_enterAll_entered]
      exact Or.inr (by decide))
    (by decide)

/-- C6: when `bridge_h` is not defined on entry and every included header is
installed, processing `bridge.h` succeeds and the declarations visible
afterwards are those visible before together with the union of the
declarations of the included headers: none of theirs is missing and nothing
else is added. -/
theorem first_inclusion_declares_union (env : Env) (s : PPState)
    (hd : isDefined env s "bridge_h" = false)
    (havail : ∀ p ∈ includePaths bridge_h, env.available p = true) :
    ∃ s1, preprocess env bridge_h s = Except.ok s1
      ∧ ∀ d, d ∈ visibleDecls env s1
          ↔ d ∈ visibleDecls env s ∨ ∃ p ∈ includePaths bridge_h, d ∈ env.decls p := by
  refine ⟨enterAll env (includePaths bridge_h) (defineName "bridge_h" s), ?_, ?_⟩
  · rw [preprocess_bridge_h, hd, if_neg (by simp), (firstMissing_eq_none env _).2 havail]
  · intro d
    simp only [visibleDecls, List.mem_flatMap, mem_enterAll_entered, defineName_entered]
    constructor
    · rintro ⟨q, hq | hq, hqd⟩
      · exact Or.inl ⟨q, hq, hqd⟩
      · exact Or.inr ⟨q, hq, hqd⟩
    · rintro (⟨q, hq, hqd⟩ | ⟨q, hq, hqd⟩)
      · exact ⟨q, Or.inl hq, hqd⟩
      · exact ⟨q, Or.inr hq, hqd⟩

/-- C6 at a fresh translation unit with every header installed. -/
theorem first_inclusion_declares_union_witness :
    ∃ s1, preprocess fullEnv bridge_h PPState.init = Except.ok s1
      ∧ ∀ d, d ∈ visibleDecls fullEnv s1
          ↔ d ∈ visibleDecls fullEnv PPState.init
            ∨ ∃ p ∈ includePaths bridge_h, d ∈ fullEnv.decls p :=
  first_inclusion_declares_union fullEnv PPState.init (by decide) (fun _ _ => rfl)

/-! ## Order of the includes -/

end CLLVM
